import Mathlib

/-!
Verification of the scope-aware data-flow analysis engine of the C bug
detector.  Each Python component relevant to the checked properties is
shallowly embedded as executable Lean definitions: dictionaries become
insertion-ordered association lists, Python sets become duplicate-free
lists in insertion order, and the per-line regex extraction layer is
abstracted into per-line event records whose fields hold exactly what the
corresponding regular expressions extract from a source line.
-/

namespace CBug

/-! ## Conflict Resolver / Global Error Manager
    (src/core/utils/global_error_manager.py) -/

/-- `ErrorKey` from global_error_manager.py lines 17-26: the identity of a
reported error. -/
structure ErrorKey where
  lineNumber : Nat
  variableName : String
  errorType : String
  errorCategory : String
deriving DecidableEq, Repr

/-- The `error_severity` map (lines 43-52): smaller number = more severe;
unknown kinds default to 10 (`.get(error_type, 10)`). -/
def errorSeverity (t : String) : Nat :=
  if t = "wild_pointer_dereference" then 1
  else if t = "use_after_free" then 2
  else if t = "null_pointer_dereference" then 3
  else if t = "memory_leak" then 4
  else if t = "uninitialized_variable" then 5
  else if t = "malloc_null_check" then 6
  else if t = "unused_variable" then 7
  else if t = "printf_format" then 8
  else 10

/-- The `error_hierarchy` map (lines 33-40): which kinds a suppressor kind
suppresses at equal severity. -/
def errorHierarchy (suppressor : String) : List String :=
  if suppressor = "wild_pointer_dereference" then
    ["uninitialized_variable", "unused_variable", "malloc_null_check"]
  else if suppressor = "use_after_free" then
    ["uninitialized_variable", "memory_leak"]
  else if suppressor = "null_pointer_dereference" then
    ["uninitialized_variable"]
  else if suppressor = "memory_leak" then
    ["malloc_null_check"]
  else if suppressor = "uninitialized_variable" then
    ["unused_variable"]
  else []

/-- `_is_suppressed_by` (lines 98-102). -/
def isSuppressedBy (errorType suppressorType : String) : Bool :=
  (errorHierarchy suppressorType).contains errorType

/-- The contents of the `reported_errors` set, in insertion order. -/
abbrev GEMState := List ErrorKey

/-- The conflict loop inside `should_report_error` (lines 70-88):
iterates the keys conflicting on (line, variable); a strictly more severe
newcomer removes the old key and continues, a strictly less severe
newcomer is rejected (leaving any removals already performed in place),
and at equal severity the hierarchy decides suppression. -/
def conflictLoop (k : ErrorKey) : List ErrorKey → GEMState → Bool × GEMState
  | [], st => (true, st)
  | r :: rest, st =>
    if errorSeverity k.errorType < errorSeverity r.errorType then
      conflictLoop k rest (st.erase r)
    else if errorSeverity r.errorType < errorSeverity k.errorType then
      (false, st)
    else if isSuppressedBy k.errorType r.errorType then
      (false, st)
    else
      conflictLoop k rest st

/-- `GlobalErrorManager.should_report_error` (lines 54-90).  Returns the
decision together with the (possibly mutated) `reported_errors` set. -/
def shouldReportError (st : GEMState) (k : ErrorKey) : Bool × GEMState :=
  if k ∈ st then (false, st)
  else
    conflictLoop k
      (st.filter fun r =>
        r.lineNumber == k.lineNumber && r.variableName == k.variableName)
      st

/-- `GlobalErrorManager.mark_error_reported` (lines 92-96): set insertion. -/
def markErrorReported (st : GEMState) (k : ErrorKey) : GEMState :=
  if k ∈ st then st else st ++ [k]

/-- The admission protocol every `ErrorReporter.add_*` method follows
(error_reporter.py lines 60-171): ask `should_report_error`, and on a
positive answer emit the report and call `mark_error_reported`. -/
def admitFinding (st : GEMState) (k : ErrorKey) : Bool × GEMState :=
  let p := shouldReportError st k
  if p.1 then (true, markErrorReported p.2 k) else (false, p.2)

/-- Admitting a sequence of findings in order. -/
def admitAll (st : GEMState) (ks : List ErrorKey) : GEMState :=
  ks.foldl (fun s k => (admitFinding s k).2) st

/-- `GlobalErrorManager.clear` (lines 108-110), called from
`ErrorReporter.clear_reports` (error_reporter.py lines 185-188). -/
def clearManager (_st : GEMState) : GEMState := []

/-- The seven ranked error kinds named by the spec's severity ordering
(§4.6): most severe first. -/
def rankedKinds : List String :=
  ["wild_pointer_dereference", "use_after_free", "null_pointer_dereference",
   "memory_leak", "uninitialized_variable", "malloc_null_check",
   "unused_variable"]

/-- Folding the manager's arbitration over a list of kinds: the kind of
least severity number (most severe) seen so far, first occurrence kept on
repeats. -/
def minKind (t0 : String) (ks : List String) : String :=
  ks.foldl (fun b t => if errorSeverity t < errorSeverity b then t else b) t0

/-! ## Scope Analyzer (src/core/modules/scope_analyzer.py)

The per-variable info dictionary built by `_detect_variable_declarations`
and friends; the fields used by the lookup claims are embedded, the
purely descriptive ones (`line_content`, `scope_level`, `scope_type`,
`scope_path`) carry no logic and are omitted. -/

/-- The variable-info record stored in `ScopeInfo.variables`. -/
structure VarInfo where
  name : String
  vtype : String
  line : Nat
  isStatic : Bool
  isConst : Bool
  isInitialized : Bool
  isPointer : Bool
deriving DecidableEq, Repr

/-- Python dict lookup on an insertion-ordered association list whose
values are updated in place (so the first matching key holds the current
value). -/
def dictLookup (d : List (String × VarInfo)) (k : String) : Option VarInfo :=
  (d.find? fun p => p.1 == k).map fun p => p.2

/-- Python dict assignment `d[k] = v`: replace the value at the first
occurrence of `k`, else append a fresh entry. -/
def dictInsert (d : List (String × VarInfo)) (k : String) (v : VarInfo) :
    List (String × VarInfo) :=
  match d with
  | [] => [(k, v)]
  | (k', v') :: rest =>
    if k' = k then (k', v) :: rest else (k', v') :: dictInsert rest k v

/-- `ScopeInfo` (scope_analyzer.py lines 10-18): scope kind, line range,
variable dictionary, and owned children.  `end_line` is `-1` until the
scope is closed, hence `Int`.  Parent pointers are represented by the
tree structure itself: `find_variable_in_scope` walks exactly the chain
of ancestors of the scope found for a line, which is the reversed descent
path of `_find_scope_for_line`. -/
inductive ScopeInfo where
  | mk (scopeType : String) (startLine : Int) (endLine : Int)
      (vars : List (String × VarInfo)) (children : List ScopeInfo)

def ScopeInfo.vars : ScopeInfo → List (String × VarInfo)
  | .mk _ _ _ vs _ => vs

def ScopeInfo.startLine : ScopeInfo → Int
  | .mk _ s _ _ _ => s

def ScopeInfo.endLine : ScopeInfo → Int
  | .mk _ _ e _ _ => e

/- `_find_scope_for_line` (lines 132-146), computing the full descent
chain instead of only its head: `search_scope` checks the line range,
tries the children in order, and returns the first child that matches,
else the scope itself.  The returned list is innermost scope first,
followed by its ancestors, i.e. the parent chain that
`find_variable_in_scope` walks. -/
mutual

def findScopeChain (ln : Int) (s : ScopeInfo) : Option (List ScopeInfo) :=
  match s with
  | .mk t st en vars ch =>
    if st ≤ ln ∧ ln ≤ en then
      match findScopeChainList ln ch with
      | some chain => some (chain ++ [ScopeInfo.mk t st en vars ch])
      | none => some [ScopeInfo.mk t st en vars ch]
    else none

def findScopeChainList (ln : Int) (l : List ScopeInfo) :
    Option (List ScopeInfo) :=
  match l with
  | [] => none
  | c :: cs =>
    match findScopeChain ln c with
    | some chain => some chain
    | none => findScopeChainList ln cs

end

/-- The innermost scope for a line, as `_find_scope_for_line` returns it. -/
def findScopeForLine (ln : Int) (root : ScopeInfo) : Option ScopeInfo :=
  (findScopeChain ln root).bind List.head?

/-- Walking a parent chain looking the name up in each scope's variable
dictionary, innermost first (the `while current:` loop of
`find_variable_in_scope`, lines 265-272). -/
def lookupChain (name : String) : List ScopeInfo → Option VarInfo
  | [] => none
  | s :: rest =>
    match dictLookup s.vars name with
    | some v => some v
    | none => lookupChain name rest

/-- `ScopeAnalyzer.find_variable_in_scope` (lines 259-272): find the
innermost scope containing the line, then search that scope and its
ancestors for the name. -/
def findVariableInScope (root : ScopeInfo) (name : String) (ln : Int) :
    Option VarInfo :=
  match findScopeChain ln root with
  | none => none
  | some chain => lookupChain name chain

/- `_extract_variable_info`'s collection order (lines 223-241): each
scope's own variables in insertion order (skipping the `__function_name`
marker entry), then the children depth-first, pre-order. -/
mutual

def collectScopeVars (s : ScopeInfo) : List (String × VarInfo) :=
  match s with
  | .mk _ _ _ vars ch =>
    (vars.filter fun p => p.1 ≠ "__function_name") ++ collectScopeVarsList ch

def collectScopeVarsList (l : List ScopeInfo) : List (String × VarInfo) :=
  match l with
  | [] => []
  | c :: cs => collectScopeVars c ++ collectScopeVarsList cs

end

/-- `ScopeAnalyzer._extract_variable_info` (lines 223-241): successive
dict assignments `all_variables[var_name] = var_info` over the collection
order.  (The `scope_path` field the Python code also attaches to each
record carries no lookup logic and is omitted from `VarInfo`.) -/
def extractVariableInfo (root : ScopeInfo) : List (String × VarInfo) :=
  (collectScopeVars root).foldl (fun d p => dictInsert d p.1 p.2) []

/-- The last assignment wins in a Python dict: the last entry for a key
in the written sequence. -/
def lastAssoc (l : List (String × VarInfo)) (k : String) : Option VarInfo :=
  (l.reverse.find? fun p => p.1 == k).map fun p => p.2

/-! ## Report pipeline (src/core/main.py)

`analyze_file_new` collects the issues of all enabled modules into
`all_issues` and finishes with `all_issues.sort(key=lambda x:
x.line_number)` (line 152) — Python's stable ascending sort keyed on the
line number — before returning them to the caller that feeds the report
generator.  No deduplication step runs on this path. -/

/-- The fields of `utils/issue.py`'s `Issue` that the post-processing
reads (the sort key) plus identity fields; the remaining descriptive
fields are untouched by the pipeline. -/
structure Issue where
  lineNumber : Nat
  issueType : String
  message : String
deriving DecidableEq, Repr

/-- The sort key order of `analyze_file_new` line 152. -/
def issueLE (a b : Issue) : Prop := a.lineNumber ≤ b.lineNumber

instance : DecidableRel issueLE := fun a b =>
  Nat.decLe a.lineNumber b.lineNumber

instance : IsTotal Issue issueLE :=
  ⟨fun a b => Nat.le_total a.lineNumber b.lineNumber⟩

instance : IsTrans Issue issueLE :=
  ⟨fun _ _ _ hab hbc => Nat.le_trans hab hbc⟩

/-- `all_issues.sort(key=lambda x: x.line_number)`: Python's sort is a
stable ascending sort on the key, modeled by insertion sort with the
non-strict key order (which is stable: an element is inserted before the
first element it is `≤` to, hence after all earlier equal-keyed ones). -/
def analyzeFileNewPost (issues : List Issue) : List Issue :=
  issues.insertionSort issueLE

/-! ## Detector module runs against the shared manager

Every detector module's `analyze` method starts with
`self.error_reporter.clear_reports()`, which empties both the reporter's
own list and the process-wide `global_error_manager` singleton
(`ErrorReporter.clear_reports`, error_reporter.py lines 185-188, calls
`global_error_manager.clear()`).  Verified at the head of `analyze` in:
modules/memory_safety_improved.py (line 38), memory_safety.py (33),
variable_state.py (35), ast_memory_tracker.py (63), standard_library.py
(165), numeric_control_flow.py (58), enhanced_memory_safety.py (47), and
the libclang analyzers' `analyze_file` entry points. -/

/-- A module run emitting candidate findings through the `ErrorReporter`
protocol: each candidate is admitted or rejected by the manager; the
admitted ones, in order, form the module's report list. -/
def processCandidates (st : GEMState) (cs : List ErrorKey) :
    List ErrorKey × GEMState :=
  cs.foldl
    (fun acc k =>
      let p := admitFinding acc.2 k
      if p.1 then (acc.1 ++ [k], p.2) else (acc.1, p.2))
    ([], st)

/-- A detector module's `analyze` entry point: `clear_reports` first
(clearing the shared manager), then the module's detection passes emit
candidates through the reporter. -/
def moduleAnalyze (st : GEMState) (cs : List ErrorKey) :
    List ErrorKey × GEMState :=
  processCandidates (clearManager st) cs

/-! ## Generic Python-container helpers for the module embeddings -/

/-- Python `set.add` on a set kept as a duplicate-free list in insertion
order. -/
def setInsert (s : List String) (x : String) : List String :=
  if x ∈ s then s else s ++ [x]

/-- Python dict assignment for an arbitrary value type. -/
def assocSet {α : Type} (d : List (String × α)) (k : String) (v : α) :
    List (String × α) :=
  match d with
  | [] => [(k, v)]
  | (k', v') :: rest =>
    if k' = k then (k', v) :: rest else (k', v') :: assocSet rest k v

/-- Python dict lookup for an arbitrary value type. -/
def assocGet {α : Type} (d : List (String × α)) (k : String) : Option α :=
  (d.find? fun p => p.1 == k).map fun p => p.2

/-! ## Improved memory safety module, core variant
    (src/core/modules/memory_safety_improved.py)

The per-line regex extraction is abstracted into a `CoreMem.Line` event
record: each field holds exactly the capture groups the corresponding
compiled pattern (module lines 24-34) finds in that source line. -/

namespace CoreMem

/-- The syntactic events of one source line, as the module's regexes
extract them: `funcDef` the name from `function_def`, `mallocs` /
`callocs` / `reallocs` the assigned variables of the allocation patterns,
`frees` the arguments of `free` calls, `derefs` the pointer names `X`
occurring in an `X->member` dereference, and `returnIdents` the
identifier lists of each `return <expr>;` on the line. -/
structure Line where
  funcDef : Option String
  mallocs : List String
  callocs : List String
  reallocs : List String
  frees : List String
  derefs : List String
  returnIdents : List (List String)
deriving DecidableEq, Repr

/-- One entry of `memory_allocations` (the descriptive `line_content`
field is omitted). -/
structure AllocInfo where
  allocType : String
  allocLine : Nat
  allocFunction : Option String
  reallocLine : Option Nat
deriving DecidableEq, Repr

/-- The module state mutated by `_identify_memory_operations`. -/
structure MemState where
  mallocedVariables : List String
  freedVariables : List String
  memoryAllocations : List (String × AllocInfo)
  functionReturns : List (String × List String)
  currentFunction : Option String
deriving DecidableEq, Repr

/-- One iteration of the `_identify_memory_operations` loop (module lines
57-111), in the statement order of the Python body: function-definition
detection, then malloc/calloc/realloc, then free, then return-statement
scanning (which records a returned variable only if it is already in the
malloced set at that point). -/
def identifyStep (st : MemState) (ln : Nat) (line : Line) : MemState :=
  let st1 :=
    match line.funcDef with
    | some f =>
      { st with currentFunction := some f,
                functionReturns := assocSet st.functionReturns f [] }
    | none => st
  let st2 := line.mallocs.foldl
    (fun s v =>
      let info : AllocInfo := ⟨"malloc", ln, s.currentFunction, none⟩
      { s with mallocedVariables := setInsert s.mallocedVariables v,
               memoryAllocations := assocSet s.memoryAllocations v info })
    st1
  let st3 := line.callocs.foldl
    (fun s v =>
      let info : AllocInfo := ⟨"calloc", ln, s.currentFunction, none⟩
      { s with mallocedVariables := setInsert s.mallocedVariables v,
               memoryAllocations := assocSet s.memoryAllocations v info })
    st2
  let st4 := line.reallocs.foldl
    (fun s v =>
      match assocGet s.memoryAllocations v with
      | some info =>
        let info2 : AllocInfo :=
          ⟨info.allocType, info.allocLine, info.allocFunction, some ln⟩
        { s with memoryAllocations := assocSet s.memoryAllocations v info2 }
      | none => s)
    st3
  let st5 := line.frees.foldl
    (fun s v => { s with freedVariables := setInsert s.freedVariables v }) st4
  match st5.currentFunction with
  | some f =>
    line.returnIdents.foldl
      (fun s idents =>
        idents.foldl
          (fun s v =>
            if v ∈ s.mallocedVariables then
              let rets := (assocGet s.functionReturns f).getD [] ++ [v]
              { s with functionReturns := assocSet s.functionReturns f rets }
            else s) s) st5
  | none => st5

end CoreMem

/-! ## Improved variable-state module
    (src/vscode-extension/backend/modules/variable_state_improved.py)

Again the regex layer is abstracted into per-line events; `variable_states`
is the name-keyed dictionary the module mutates. -/

namespace VarStateMod

/-- The syntactic events of one source line: `ptrDecls` the names matched
by the three pointer-declaration patterns after the isdigit/length-1
filter (lines 62-83), `funcParams` the parameter identifiers of a
function-definition header minus the type keywords (lines 92-108),
`varDecls` the plain declarations with their initializer flag (lines
110-131), `assigns` / `mallocAssigns` / `callocAssigns` the assignment
targets tracked by `_track_variable_states`, `uses` every identifier the
`variable_use` pattern finds on the line, `memberNames` the identifiers
appearing as the member half of an `X->m` or `X.m` access,
`memberAccesses` the (pointer, member) pairs the `struct_member_access`
pattern finds (consumed by the two pointer-dereference detectors), and
the two skip flags of `_detect_real_issues` (lines 182-189). -/
structure Line where
  ptrDecls : List String
  funcParams : List String
  varDecls : List (String × Bool)
  assigns : List String
  mallocAssigns : List String
  callocAssigns : List String
  uses : List String
  memberNames : List String
  memberAccesses : List (String × String)
  isCommentOrBlank : Bool
  isDeclSkipLine : Bool
deriving DecidableEq, Repr

/-- One `variable_states` entry; the fields the detection logic reads
(`type`, `declared_line`, `is_initialized`, `is_function_param`, and the
allocation flag set by the tracking phase). -/
structure VState where
  vtype : String
  declaredLine : Nat
  isInitialized : Bool
  isFunctionParam : Bool
  hasAllocatedMemory : Bool
deriving DecidableEq, Repr

abbrev StateDict := List (String × VState)

/-- One iteration of `_identify_variable_types` (lines 56-131), in the
Python statement order: pointer declarations overwrite unconditionally as
uninitialized pointers; function parameters overwrite unconditionally as
initialized parameters ("函数参数被认为是已初始化的", line 106); plain
declarations are inserted only if the name has no entry yet. -/
def identifyStep (d : StateDict) (ln : Nat) (line : Line) : StateDict :=
  line.varDecls.foldl
    (fun d p =>
      if (assocGet d p.1).isSome then d
      else assocSet d p.1 ⟨"variable", ln, p.2, false, false⟩)
    (line.funcParams.foldl
      (fun d v => assocSet d v ⟨"parameter", ln, true, true, false⟩)
      (line.ptrDecls.foldl
        (fun d v => assocSet d v ⟨"pointer", ln, false, false, false⟩) d))

end VarStateMod

/-! ## Improved memory safety module, extension variant
    (src/vscode-extension/core/modules/memory_safety_improved.py)

This variant adds the interprocedural summarizer and the tainted-pointer
aggregation.  Only the taint path is embedded: `_analyze_function_summaries`
(lines 252-321), the taint branch of `_analyze_interprocedural_memory`
(lines 323-359), the skip/dereference structure of
`_detect_uninitialized_pointer_dereference` (lines 516-600), and the
tainted branch of `_check_pointer_safety` (lines 602-637).  The
non-tainted branch of `_check_pointer_safety` only fires for pointers
that are NOT in `tainted_variables` (the tainted branch returns first),
so it never contributes findings about a tainted variable; the
allocation-ownership transfer inside `_analyze_interprocedural_memory`
mutates only `memory_allocations`, which the taint path never reads.
The loop-context counters (`in_loop`, `loop_depth`) tracked by the
detection loop are read by no branch and are omitted. -/

namespace ExtMem

/-- Per-line events: `funcDefSummary` the name the summaries regex
captures, `braceDelta` the `{`/`}` count difference, `ptrDecls` the
pointer declarations as (name, is_initialized, is_static), `returnIdents`
the identifier lists of the `return` statements, `callAssigns` the
(assigned variable, callee) pairs of `lhs = callee(...)` matches,
`derefs` the pointer names reaching `_check_pointer_safety` on this line
(from `*p` / `p->m` / `p[i]` / `**p` / call-argument checks),
`isDeclSkip` whether one of the two declaration-skip patterns of the
detection loop matches, and `isFuncDefDetect` whether the detection
loop's own function-definition pattern matches (`continue`). -/
structure Line where
  funcDefSummary : Option String
  braceDelta : Int
  ptrDecls : List (String × Bool × Bool)
  returnIdents : List (List String)
  callAssigns : List (String × String)
  derefs : List String
  isDeclSkip : Bool
  isFuncDefDetect : Bool
deriving DecidableEq, Repr

/-- A function summary (`function_summaries` entry); the descriptive
`declared_pointers` and `return_statements` lists are omitted, the
fields the taint logic reads are kept. -/
structure FuncSummary where
  startLine : Nat
  endLine : Nat
  uninitializedPointers : List String
  returnsUninitializedPointer : Bool
deriving DecidableEq, Repr

/-- The loop state of `_analyze_function_summaries`. -/
structure SumState where
  currentFunction : Option String
  braceCount : Int
  summaries : List (String × FuncSummary)
  returnStates : List (String × String)
deriving DecidableEq, Repr

/-- One iteration of `_analyze_function_summaries` (lines 259-321): a
function-definition line opens a fresh summary and `continue`s; inside a
function (brace count positive) the brace count is updated first, then
pointer declarations extend `uninitialized_pointers` (unless initialized
or static), then each `return` whose expression mentions such a pointer
marks the function as returning an uninitialized pointer; a zero brace
count closes the function. -/
def summaryStep (st : SumState) (ln : Nat) (line : Line) : SumState :=
  match line.funcDefSummary with
  | some f =>
    { st with currentFunction := some f, braceCount := 1,
              summaries := assocSet st.summaries f ⟨ln, 0, [], false⟩ }
  | none =>
    match st.currentFunction with
    | some f =>
      if st.braceCount > 0 then
        let bc := st.braceCount + line.braceDelta
        let summ0 := (assocGet st.summaries f).getD ⟨0, 0, [], false⟩
        let uninit := line.ptrDecls.foldl
          (fun u p =>
            if p.2.1 = false ∧ p.2.2 = false then u ++ [p.1] else u)
          summ0.uninitializedPointers
        let retHere := line.returnIdents.any fun idents =>
          idents.any fun v => uninit.contains v
        let ret := summ0.returnsUninitializedPointer || retHere
        let rs :=
          if retHere then
            assocSet st.returnStates f "uninitialized_pointer"
          else st.returnStates
        { st with
          braceCount := bc,
          summaries := assocSet st.summaries f
            ⟨summ0.startLine, if bc = 0 then ln else summ0.endLine,
              uninit, ret⟩,
          returnStates := rs,
          currentFunction := if bc = 0 then none else some f }
      else st
    | none => st

/-- `_analyze_function_summaries` over the whole file. -/
def analyzeFunctionSummaries (lines : List Line) : SumState :=
  (lines.enumFrom 1).foldl (fun st p => summaryStep st p.1 p.2)
    ⟨none, 0, [], []⟩

/-- The taint branch of `_analyze_interprocedural_memory` (lines
327-345): at every `lhs = callee(...)`, if the callee's return state is
"uninitialized_pointer", `lhs` is tainted with the callee as source. -/
def analyzeInterproceduralMemory (returnStates : List (String × String))
    (lines : List Line) : List (String × String) :=
  lines.foldl
    (fun t line =>
      line.callAssigns.foldl
        (fun t p =>
          if assocGet returnStates p.2 = some "uninitialized_pointer" then
            assocSet t p.1 p.2
          else t)
        t)
    []

/-- A tainted-pointer finding emitted by the tainted branch of
`_check_pointer_safety`: `line` the reporting line, `taintSource` the
callee named in the message, `listedLines` the usage aggregate the
message carries — non-empty only when more than one usage was recorded
at reporting time. -/
structure TFinding where
  line : Nat
  var : String
  taintSource : String
  listedLines : List Nat
deriving DecidableEq, Repr

/-- The mutable state of the detection phase: `pointer_usage_locations`,
`reported_pointers`, and the reports already emitted. -/
structure DetectState where
  usageLocations : List (String × List Nat)
  reportedPointers : List String
  findings : List TFinding
deriving DecidableEq, Repr

/-- The tainted branch of `_check_pointer_safety` (lines 615-637): the
usage line is appended to the pointer's usage list; only the first
detection reports, with the usage aggregate included only when the list
already holds more than one line (impossible at a first report from a
fresh state).  For a non-tainted pointer this embedding is the identity:
the remaining branches never concern a tainted variable. -/
def checkPointerSafety (tainted : List (String × String))
    (st : DetectState) (ptr : String) (ln : Nat) : DetectState :=
  match assocGet tainted ptr with
  | some src =>
    let locs := (assocGet st.usageLocations ptr).getD [] ++ [ln]
    let usage := assocSet st.usageLocations ptr locs
    if ptr ∈ st.reportedPointers then
      ⟨usage, st.reportedPointers, st.findings⟩
    else
      ⟨usage, st.reportedPointers ++ [ptr],
        st.findings ++
          [⟨ln, ptr, src, if locs.length > 1 then locs else []⟩]⟩
  | none => st

/-- One iteration of `_detect_uninitialized_pointer_dereference` (lines
525-600), taint path: declaration lines are skipped, function-definition
lines `continue`, and each pointer use on the line goes through
`_check_pointer_safety`. -/
def detectStep (tainted : List (String × String)) (st : DetectState)
    (ln : Nat) (line : Line) : DetectState :=
  if line.isDeclSkip then st
  else if line.isFuncDefDetect then st
  else line.derefs.foldl
    (fun st ptr => checkPointerSafety tainted st ptr ln) st

/-- The detection loop over the whole file. -/
def detectTaintedUses (tainted : List (String × String))
    (lines : List Line) : DetectState :=
  (lines.enumFrom 1).foldl (fun st p => detectStep tainted st p.1 p.2)
    ⟨[], [], []⟩

/-- Summaries → interprocedural taint → detection: the taint findings of
one `analyze` run. -/
def extTaintPipeline (lines : List Line) : List TFinding :=
  (detectTaintedUses
    (analyzeInterproceduralMemory
      (analyzeFunctionSummaries lines).returnStates lines)
    lines).findings

/-- The effective dereference lines of a pointer `q`: the lines (with
multiplicity, in order) on which the detection loop feeds `q` into
`_check_pointer_safety`. -/
def qUseLines (q : String) (lines : List Line) : List Nat :=
  ((lines.enumFrom 1).filter
      fun p => !(p.2.isDeclSkip || p.2.isFuncDefDetect)).flatMap
    fun p => (p.2.derefs.filter fun d => d == q).map fun _ => p.1

end ExtMem

end CBug

-- ═══════════════════ THEOREMS ═══════════════════

namespace CBug

theorem rankedKinds_severity_inj :
    ∀ t ∈ rankedKinds, ∀ u ∈ rankedKinds,
      errorSeverity t = errorSeverity u → t = u := by decide

end CBug

namespace CBug

theorem admitFinding_single (l : Nat) (v c t0 t : String)
    (h0 : t0 ∈ rankedKinds) (h : t ∈ rankedKinds) :
    admitFinding [⟨l, v, t0, c⟩] ⟨l, v, t, c⟩ =
      if errorSeverity t < errorSeverity t0
      then (true, [⟨l, v, t, c⟩])
      else (false, [⟨l, v, t0, c⟩]) := by
  by_cases ht : t = t0
  · subst ht
    have hmem : (⟨l, v, t, c⟩ : ErrorKey) ∈ [(⟨l, v, t, c⟩ : ErrorKey)] := by simp
    simp [admitFinding, shouldReportError, hmem]
  · have hsev : errorSeverity t ≠ errorSeverity t0 := fun he =>
      ht (rankedKinds_severity_inj t h t0 h0 he)
    have hk : (⟨l, v, t, c⟩ : ErrorKey) ∉ [(⟨l, v, t0, c⟩ : ErrorKey)] := by
      simp [ErrorKey.mk.injEq, ht]
    rcases Nat.lt_or_ge (errorSeverity t) (errorSeverity t0) with hlt | hge
    · simp [admitFinding, shouldReportError, hk, conflictLoop, hlt,
        List.erase, markErrorReported, ht]
    · have hlt' : errorSeverity t0 < errorSeverity t :=
        Nat.lt_of_le_of_ne hge (Ne.symm hsev)
      simp [admitFinding, shouldReportError, hk, conflictLoop,
        Nat.not_lt.mpr hge, hlt']

end CBug

namespace CBug

theorem minKind_mem (t0 : String) (ks : List String) :
    minKind t0 ks ∈ t0 :: ks := by
  induction ks generalizing t0 with
  | nil => simp [minKind]
  | cons t rest ih =>
    have hx : (if errorSeverity t < errorSeverity t0 then t else t0) = t ∨
        (if errorSeverity t < errorSeverity t0 then t else t0) = t0 := by
      by_cases hc : errorSeverity t < errorSeverity t0 <;> simp [hc]
    have h := ih (if errorSeverity t < errorSeverity t0 then t else t0)
    rw [List.mem_cons] at h
    show minKind (if errorSeverity t < errorSeverity t0 then t else t0) rest ∈
      t0 :: t :: rest
    rcases h with hm | hm
    · rcases hx with h1 | h1 <;> rw [hm, h1] <;> simp
    · simp [hm]

theorem minKind_le (t0 : String) (ks : List String) :
    ∀ u ∈ t0 :: ks, errorSeverity (minKind t0 ks) ≤ errorSeverity u := by
  induction ks generalizing t0 with
  | nil =>
    intro u hu
    rw [List.mem_singleton] at hu
    subst hu
    exact le_refl _
  | cons t rest ih =>
    intro u hu
    have hxle :
        errorSeverity (if errorSeverity t < errorSeverity t0 then t else t0) ≤
          errorSeverity t0 ∧
        errorSeverity (if errorSeverity t < errorSeverity t0 then t else t0) ≤
          errorSeverity t := by
      constructor <;> by_cases hc : errorSeverity t < errorSeverity t0 <;>
        simp [hc] <;> omega
    have step := ih (if errorSeverity t < errorSeverity t0 then t else t0)
    have hmin :
        errorSeverity
            (minKind (if errorSeverity t < errorSeverity t0 then t else t0)
              rest) ≤
          errorSeverity (if errorSeverity t < errorSeverity t0 then t else t0) :=
      step _ (by simp)
    rw [List.mem_cons] at hu
    rcases hu with hu | hu
    · subst hu
      exact le_trans hmin hxle.1
    · rw [List.mem_cons] at hu
      rcases hu with hu | hu
      · subst hu
        exact le_trans hmin hxle.2
      · exact step u (List.mem_cons_of_mem _ hu)

theorem admitAll_single_pair (l : Nat) (v c : String) :
    ∀ (ks : List String) (t0 : String), t0 ∈ rankedKinds →
      (∀ t ∈ ks, t ∈ rankedKinds) →
      admitAll [⟨l, v, t0, c⟩] (ks.map fun t => ⟨l, v, t, c⟩) =
        [⟨l, v, minKind t0 ks, c⟩] := by
  intro ks
  induction ks with
  | nil => intro t0 _ _; simp [admitAll, minKind]
  | cons t rest ih =>
    intro t0 h0 h
    have ht : t ∈ rankedKinds := h t (by simp)
    have hrest : ∀ u ∈ rest, u ∈ rankedKinds := fun u hu => h u (by simp [hu])
    have hstep := admitFinding_single l v c t0 t h0 ht
    have hnext : (if errorSeverity t < errorSeverity t0 then t else t0) ∈
        rankedKinds := by
      by_cases hc : errorSeverity t < errorSeverity t0 <;> simp [hc, ht, h0]
    have hrec := ih (if errorSeverity t < errorSeverity t0 then t else t0)
      hnext hrest
    simp only [List.map_cons, admitAll, List.foldl_cons] at hrec ⊢
    rw [hstep]
    by_cases hc : errorSeverity t < errorSeverity t0
    · rw [if_pos hc]
      rw [if_pos hc] at hrec
      have hmk : minKind t0 (t :: rest) = minKind t rest := by
        simp [minKind, hc]
      rw [hmk]
      exact hrec
    · rw [if_neg hc]
      rw [if_neg hc] at hrec
      have hmk : minKind t0 (t :: rest) = minKind t0 rest := by
        simp [minKind, hc]
      rw [hmk]
      exact hrec

end CBug

namespace CBug

/-- C1 counterexample: the Global Error Manager does NOT guarantee at most
one admitted finding per (line, variable) pair.  Two findings at line 10
for variable "x" with the same kind `uninitialized_variable` but different
categories ("memory" vs "variable") tie in severity, are not related by
the suppression hierarchy, and are therefore both admitted: afterwards the
`reported_errors` set holds two keys with the same (line, variable). -/
theorem globalErrorManager_pair_not_unique :
    admitAll [] [⟨10, "x", "uninitialized_variable", "memory"⟩,
                 ⟨10, "x", "uninitialized_variable", "variable"⟩] =
      [⟨10, "x", "uninitialized_variable", "memory"⟩,
       ⟨10, "x", "uninitialized_variable", "variable"⟩] ∧
    ((admitAll [] [⟨10, "x", "uninitialized_variable", "memory"⟩,
                   ⟨10, "x", "uninitialized_variable", "variable"⟩]).filter
        fun k => k.lineNumber == 10 && k.variableName == "x").length = 2 := by
  constructor <;> decide

/-- C1 (amended): restricted to findings whose kinds come from the seven
ranked kinds and which share one error category, the invariant holds: after
admitting any sequence of findings at a fixed (line, variable) pair into a
cleared manager, the admitted set holds exactly one key at that pair, and
it carries a kind of maximal severity among the arrivals.  Since this
characterisation depends only on the multiset of arrivals, the final
admitted set is independent of arrival order, and instantiating the
theorem at every prefix of the arrival sequence shows the invariant holds
at every intermediate point of the run. -/
theorem globalErrorManager_single_category_unique (l : Nat) (v c t0 : String)
    (ks : List String) (h0 : t0 ∈ rankedKinds)
    (h : ∀ t ∈ ks, t ∈ rankedKinds) :
    ∃ tm ∈ t0 :: ks,
      admitAll [] ((t0 :: ks).map fun t => ⟨l, v, t, c⟩) = [⟨l, v, tm, c⟩] ∧
      ∀ u ∈ t0 :: ks, errorSeverity tm ≤ errorSeverity u := by
  refine ⟨minKind t0 ks, minKind_mem t0 ks, ?_, minKind_le t0 ks⟩
  have hfirst : admitFinding [] ⟨l, v, t0, c⟩ = (true, [⟨l, v, t0, c⟩]) := by
    simp [admitFinding, shouldReportError, conflictLoop, markErrorReported]
  simp only [List.map_cons, admitAll, List.foldl_cons, hfirst]
  exact admitAll_single_pair l v c ks t0 h0 h

/-- Witness for the amended C1 at a concrete run: kinds
`memory_leak`, `wild_pointer_dereference`, `uninitialized_variable` all in
category "memory" at (7, "p") leave exactly the wild-pointer key. -/
theorem globalErrorManager_single_category_unique_witness :
    ("memory_leak" ∈ rankedKinds ∧
      ∀ t ∈ ["wild_pointer_dereference", "uninitialized_variable"],
        t ∈ rankedKinds) ∧
    ∃ tm ∈ ["memory_leak", "wild_pointer_dereference",
            "uninitialized_variable"],
      admitAll []
          ((["memory_leak", "wild_pointer_dereference",
             "uninitialized_variable"]).map fun t => ⟨7, "p", t, "memory"⟩) =
        [⟨7, "p", tm, "memory"⟩] ∧
      ∀ u ∈ ["memory_leak", "wild_pointer_dereference",
             "uninitialized_variable"],
        errorSeverity tm ≤ errorSeverity u :=
  ⟨⟨by decide, by decide⟩,
    globalErrorManager_single_category_unique 7 "p" "memory" "memory_leak"
      ["wild_pointer_dereference", "uninitialized_variable"] (by decide)
      (by decide)⟩

/-- C10: when `should_report_error` is called with a key identical to one
already recorded, it answers `False` and leaves the recorded set
completely unchanged — the exact-duplicate check runs before the conflict
loop can erase anything. -/
theorem shouldReportError_exact_duplicate (st : GEMState) (k : ErrorKey)
    (h : k ∈ st) : shouldReportError st k = (false, st) := by
  simp [shouldReportError, h]

/-- Witness for C10 at a concrete state and key. -/
theorem shouldReportError_exact_duplicate_witness :
    (⟨3, "p", "memory_leak", "memory"⟩ : ErrorKey) ∈
      [(⟨3, "p", "memory_leak", "memory"⟩ : ErrorKey),
       ⟨4, "q", "unused_variable", "variable"⟩] ∧
    shouldReportError
        [⟨3, "p", "memory_leak", "memory"⟩,
         ⟨4, "q", "unused_variable", "variable"⟩]
        ⟨3, "p", "memory_leak", "memory"⟩ =
      (false, [⟨3, "p", "memory_leak", "memory"⟩,
               ⟨4, "q", "unused_variable", "variable"⟩]) :=
  ⟨by decide,
    shouldReportError_exact_duplicate _ _ (by decide)⟩

/-- C2: severity arbitration.  If the manager already holds exactly one
conflicting key `kOld` at the (line, variable) of the newcomer `kNew`,
then: a strictly more severe existing kind rejects the newcomer leaving
the state unchanged, and a strictly more severe new kind evicts the
existing key and admits the newcomer. -/
theorem severity_arbitration (st : GEMState) (kNew kOld : ErrorKey)
    (hnew : kNew ∉ st)
    (hconf : (st.filter fun r =>
        r.lineNumber == kNew.lineNumber &&
        r.variableName == kNew.variableName) = [kOld]) :
    (errorSeverity kOld.errorType < errorSeverity kNew.errorType →
      admitFinding st kNew = (false, st)) ∧
    (errorSeverity kNew.errorType < errorSeverity kOld.errorType →
      admitFinding st kNew = (true, st.erase kOld ++ [kNew])) := by
  have hsr : shouldReportError st kNew = conflictLoop kNew [kOld] st := by
    rw [shouldReportError, if_neg hnew, hconf]
  constructor
  · intro hlt
    have : conflictLoop kNew [kOld] st = (false, st) := by
      rw [conflictLoop, if_neg (by omega), if_pos hlt]
    simp [admitFinding, hsr, this]
  · intro hlt
    have : conflictLoop kNew [kOld] st = (true, st.erase kOld) := by
      rw [conflictLoop, if_pos hlt]
      rfl
    have hnotin : kNew ∉ st.erase kOld := fun hmem =>
      hnew (List.mem_of_mem_erase hmem)
    simp [admitFinding, hsr, this, markErrorReported, hnotin]

/-- Witness for C2: upgrading `uninitialized_variable` to
`wild_pointer_dereference` at (10, "x"), and rejecting a new
`uninitialized_variable` against an admitted `wild_pointer_dereference`
(a pair that is also related by the suppression hierarchy — the strict
severity branch alone already rejects it). -/
theorem severity_arbitration_witness :
    ((⟨10, "x", "wild_pointer_dereference", "memory"⟩ : ErrorKey) ∉
        [(⟨10, "x", "uninitialized_variable", "variable"⟩ : ErrorKey)] ∧
      (([(⟨10, "x", "uninitialized_variable", "variable"⟩ : ErrorKey)].filter
          fun r => r.lineNumber == 10 && r.variableName == "x") =
        [⟨10, "x", "uninitialized_variable", "variable"⟩])) ∧
    admitFinding [⟨10, "x", "uninitialized_variable", "variable"⟩]
        ⟨10, "x", "wild_pointer_dereference", "memory"⟩ =
      (true, [⟨10, "x", "wild_pointer_dereference", "memory"⟩]) ∧
    admitFinding [⟨10, "x", "wild_pointer_dereference", "memory"⟩]
        ⟨10, "x", "uninitialized_variable", "variable"⟩ =
      (false, [⟨10, "x", "wild_pointer_dereference", "memory"⟩]) :=
  ⟨⟨by decide, by decide⟩, by
    have h := (severity_arbitration
        [⟨10, "x", "uninitialized_variable", "variable"⟩]
        ⟨10, "x", "wild_pointer_dereference", "memory"⟩
        ⟨10, "x", "uninitialized_variable", "variable"⟩
        (by decide) (by decide)).2 (by decide)
    simpa using h, by
    exact (severity_arbitration
        [⟨10, "x", "wild_pointer_dereference", "memory"⟩]
        ⟨10, "x", "uninitialized_variable", "variable"⟩
        ⟨10, "x", "wild_pointer_dereference", "memory"⟩
        (by decide) (by decide)).1 (by decide)⟩

end CBug

namespace CBug

theorem findScopeChainList_append_none (ln : Int) (xs ys : List ScopeInfo)
    (h : findScopeChainList ln xs = none) :
    findScopeChainList ln (xs ++ ys) = findScopeChainList ln ys := by
  induction xs with
  | nil => simp
  | cons c cs ih =>
    rw [findScopeChainList] at h
    rw [List.cons_append, findScopeChainList]
    cases hc : findScopeChain ln c with
    | some chain =>
      rw [hc] at h
      exact absurd h (by simp)
    | none =>
      rw [hc] at h
      exact ih h

/-- C3: shadowing lookup.  For a scope tree in which the outer scope
declares `name` and a nested block redeclares it, `find_variable_in_scope`
returns the inner declaration for a query line inside the nested block
(provided no sibling before the block and no grandchild of the block also
contains the line), and returns the outer declaration for a query line
after the block closes but still inside the outer scope (provided no
other child scope contains that line). -/
theorem shadowing_lookup
    (tOut tIn : String) (sOut eOut sIn eIn : Int)
    (varsOut varsIn : List (String × VarInfo))
    (pre post chIn : List ScopeInfo)
    (name : String) (dOut dIn : VarInfo) (lnIn lnAfter : Int)
    (hOut : dictLookup varsOut name = some dOut)
    (hIn : dictLookup varsIn name = some dIn)
    (hin1 : sOut ≤ lnIn ∧ lnIn ≤ eOut)
    (hin2 : sIn ≤ lnIn ∧ lnIn ≤ eIn)
    (hpreIn : findScopeChainList lnIn pre = none)
    (hchIn : findScopeChainList lnIn chIn = none)
    (haft1 : sOut ≤ lnAfter ∧ lnAfter ≤ eOut)
    (haft2 : eIn < lnAfter)
    (hpreAft : findScopeChainList lnAfter pre = none)
    (hpostAft : findScopeChainList lnAfter post = none) :
    findVariableInScope
        (ScopeInfo.mk tOut sOut eOut varsOut
          (pre ++ ScopeInfo.mk tIn sIn eIn varsIn chIn :: post))
        name lnIn = some dIn ∧
    findVariableInScope
        (ScopeInfo.mk tOut sOut eOut varsOut
          (pre ++ ScopeInfo.mk tIn sIn eIn varsIn chIn :: post))
        name lnAfter = some dOut := by
  constructor
  · have hinner : findScopeChain lnIn (ScopeInfo.mk tIn sIn eIn varsIn chIn) =
        some [ScopeInfo.mk tIn sIn eIn varsIn chIn] := by
      rw [findScopeChain, if_pos hin2, hchIn]
    have hlist : findScopeChainList lnIn
        (pre ++ ScopeInfo.mk tIn sIn eIn varsIn chIn :: post) =
        some [ScopeInfo.mk tIn sIn eIn varsIn chIn] := by
      rw [findScopeChainList_append_none _ _ _ hpreIn, findScopeChainList,
        hinner]
    rw [findVariableInScope, findScopeChain, if_pos hin1, hlist]
    simp [lookupChain, ScopeInfo.vars, hIn]
  · have hinner : findScopeChain lnAfter
        (ScopeInfo.mk tIn sIn eIn varsIn chIn) = none := by
      rw [findScopeChain, if_neg]
      omega
    have hlist : findScopeChainList lnAfter
        (pre ++ ScopeInfo.mk tIn sIn eIn varsIn chIn :: post) = none := by
      rw [findScopeChainList_append_none _ _ _ hpreAft, findScopeChainList,
        hinner, hpostAft]
    rw [findVariableInScope, findScopeChain, if_pos haft1, hlist]
    simp [lookupChain, ScopeInfo.vars, hOut]

end CBug

namespace CBug

/-- Witness for C3 at a concrete tree: global scope lines 1-10 declaring
`x` at line 1, nested block lines 3-6 redeclaring `x` at line 3; the
lookup at line 4 sees the inner declaration and at line 8 the outer one. -/
theorem shadowing_lookup_witness :
    ((1 : Int) ≤ 4 ∧ (4 : Int) ≤ 10) ∧ ((3 : Int) ≤ 4 ∧ (4 : Int) ≤ 6) ∧
    ((6 : Int) < 8) ∧
    dictLookup [("x", ⟨"x", "int", 1, false, false, true, false⟩)] "x" =
      some ⟨"x", "int", 1, false, false, true, false⟩ ∧
    findVariableInScope
        (ScopeInfo.mk "global" 1 10
          [("x", ⟨"x", "int", 1, false, false, true, false⟩)]
          [ScopeInfo.mk "block" 3 6
            [("x", ⟨"x", "int", 3, false, false, false, false⟩)] []])
        "x" 4 = some ⟨"x", "int", 3, false, false, false, false⟩ ∧
    findVariableInScope
        (ScopeInfo.mk "global" 1 10
          [("x", ⟨"x", "int", 1, false, false, true, false⟩)]
          [ScopeInfo.mk "block" 3 6
            [("x", ⟨"x", "int", 3, false, false, false, false⟩)] []])
        "x" 8 = some ⟨"x", "int", 1, false, false, true, false⟩ := by
  refine ⟨by decide, by decide, by decide, by rfl, ?_⟩
  have h := shadowing_lookup "global" "block" 1 10 3 6
    [("x", ⟨"x", "int", 1, false, false, true, false⟩)]
    [("x", ⟨"x", "int", 3, false, false, false, false⟩)]
    [] [] [] "x"
    ⟨"x", "int", 1, false, false, true, false⟩
    ⟨"x", "int", 3, false, false, false, false⟩ 4 8
    (by rfl) (by rfl) (by decide) (by decide) (by rfl) (by rfl)
    (by decide) (by decide) (by rfl) (by rfl)
  simpa using h

end CBug

namespace CBug

theorem dictLookup_cons (k' : String) (v' : VarInfo)
    (rest : List (String × VarInfo)) (n : String) :
    dictLookup ((k', v') :: rest) n =
      if k' = n then some v' else dictLookup rest n := by
  by_cases h : k' = n
  · rw [if_pos h, dictLookup, List.find?_cons_of_pos _ (by simpa using h)]
    rfl
  · rw [if_neg h, dictLookup, List.find?_cons_of_neg _ (by simpa using h)]
    rfl

theorem dictInsert_lookup (d : List (String × VarInfo)) (k n : String)
    (v : VarInfo) :
    dictLookup (dictInsert d k v) n =
      if n = k then some v else dictLookup d n := by
  induction d with
  | nil =>
    by_cases h : n = k
    · subst h
      simp [dictInsert, dictLookup_cons]
    · have h' : ¬ k = n := fun hh => h hh.symm
      simp [dictInsert, dictLookup_cons, h, h', dictLookup]
  | cons p rest ih =>
    obtain ⟨k', v'⟩ := p
    by_cases hk : k' = k
    · subst hk
      have hd : dictInsert ((k', v') :: rest) k' v = (k', v) :: rest := by
        simp [dictInsert]
      rw [hd, dictLookup_cons, dictLookup_cons]
      by_cases hn : k' = n
      · simp [hn]
      · have h' : ¬ n = k' := fun hh => hn hh.symm
        simp [hn, h']
    · simp only [dictInsert, if_neg hk]
      rw [dictLookup_cons, dictLookup_cons]
      by_cases hn : k' = n
      · have h' : ¬ n = k := fun hh => hk (hn.trans hh)
        simp [hn, h']
      · simp [hn, ih]

theorem dictInsert_keys (d : List (String × VarInfo)) (k : String)
    (v : VarInfo) :
    (dictInsert d k v).map Prod.fst =
      if k ∈ d.map Prod.fst then d.map Prod.fst
      else d.map Prod.fst ++ [k] := by
  induction d with
  | nil => simp [dictInsert]
  | cons p rest ih =>
    obtain ⟨k', v'⟩ := p
    by_cases hk : k' = k
    · subst hk
      simp [dictInsert]
    · have hiff : (k ∈ k' :: rest.map Prod.fst) ↔ k ∈ rest.map Prod.fst := by
        simp [Ne.symm hk]
      by_cases hm : k ∈ rest.map Prod.fst
      · simp [dictInsert, hk, ih, hm, hiff]
      · simp [dictInsert, hk, ih, hm, hiff]

theorem foldl_dictInsert_nodup (l : List (String × VarInfo))
    (d : List (String × VarInfo)) (hd : (d.map Prod.fst).Nodup) :
    (((l.foldl (fun d p => dictInsert d p.1 p.2) d)).map Prod.fst).Nodup := by
  induction l generalizing d with
  | nil => simpa using hd
  | cons p rest ih =>
    refine ih (dictInsert d p.1 p.2) ?_
    rw [dictInsert_keys]
    by_cases hm : p.1 ∈ d.map Prod.fst
    · simpa [hm] using hd
    · simp only [hm, if_false]
      refine List.Nodup.append hd (List.nodup_singleton _) ?_
      intro a ha hsing
      rw [List.mem_singleton] at hsing
      subst hsing
      exact hm ha

theorem lookup_foldl_dictInsert (l : List (String × VarInfo))
    (d : List (String × VarInfo)) (n : String) :
    dictLookup (l.foldl (fun d p => dictInsert d p.1 p.2) d) n =
      (lastAssoc l n).orElse fun _ => dictLookup d n := by
  induction l generalizing d with
  | nil => simp [lastAssoc, Option.orElse]
  | cons p rest ih =>
    have hrev : lastAssoc (p :: rest) n =
        (lastAssoc rest n).orElse fun _ =>
          if p.1 = n then some p.2 else none := by
      simp only [lastAssoc, List.reverse_cons, List.find?_append]
      cases hfind : rest.reverse.find? fun q => q.1 == n with
      | some w => simp [Option.orElse, hfind]
      | none =>
        simp only [hfind, Option.orElse]
        by_cases hpn : p.1 = n
        · simp [List.find?, hpn]
        · have hb : (p.1 == n) = false := by simp [hpn]
          simp [List.find?, hb, hpn]
    rw [List.foldl_cons, ih, hrev, dictInsert_lookup]
    cases hlast : lastAssoc rest n with
    | some w => simp [Option.orElse]
    | none =>
      by_cases hn : n = p.1
      · simp [Option.orElse, hn]
      · have h' : ¬ p.1 = n := fun hh => hn hh.symm
        simp [Option.orElse, hn, h']

/-- C8: the flattened variable map returned by `ScopeAnalyzer.analyze`
(via `_extract_variable_info`) holds at most one entry per variable name
file-wide, and for every name the entry is the one collected last during
the depth-first pre-order traversal of the scope tree: a later
same-named declaration in any scope overwrites earlier ones, so the map
cannot distinguish two same-named variables in disjoint scopes. -/
theorem extractVariableInfo_last_wins (root : ScopeInfo) (name : String) :
    ((extractVariableInfo root).map Prod.fst).Nodup ∧
    dictLookup (extractVariableInfo root) name =
      lastAssoc (collectScopeVars root) name := by
  constructor
  · exact foldl_dictInsert_nodup _ [] (by simp)
  · rw [extractVariableInfo, lookup_foldl_dictInsert]
    cases h : lastAssoc (collectScopeVars root) name <;>
      simp [h, Option.orElse, dictLookup]

end CBug

namespace CBug

theorem filter_orderedInsert_line (x : Issue) (l : List Issue) (n : Nat) :
    (l.orderedInsert issueLE x).filter (fun i => i.lineNumber == n) =
      if x.lineNumber == n then
        x :: l.filter (fun i => i.lineNumber == n)
      else l.filter (fun i => i.lineNumber == n) := by
  induction l with
  | nil =>
    by_cases hx : x.lineNumber = n
    · have hb : (x.lineNumber == n) = true := by simp [hx]
      simp [List.orderedInsert, List.filter, hb]
    · have hb : (x.lineNumber == n) = false := by simp [hx]
      simp [List.orderedInsert, List.filter, hb]
  | cons y ys ih =>
    by_cases hc : issueLE x y
    · rw [List.orderedInsert, if_pos hc, List.filter_cons, List.filter_cons]
    · rw [List.orderedInsert, if_neg hc, List.filter_cons, ih,
        List.filter_cons]
      by_cases hx : x.lineNumber = n
      · have hy : ¬ y.lineNumber = n := by
          have : y.lineNumber < x.lineNumber := by
            simpa [issueLE, Nat.not_le] using hc
          omega
        simp [hx, hy]
      · by_cases hy : y.lineNumber = n <;> simp [hx, hy]

/-- C7 (amended): the issue sequence returned by the default analysis
path (`analyze_file_new`) is sorted by ascending line number, is a
permutation of the collected module outputs, and preserves the relative
input order of issues sharing a line number (stability).  It is NOT
deduplicated on this path — see the counterexample theorem. -/
theorem analyzeFileNewPost_sorted_stable (l : List Issue) :
    (analyzeFileNewPost l).Sorted issueLE ∧
    (analyzeFileNewPost l).Perm l ∧
    ∀ n, (analyzeFileNewPost l).filter (fun i => i.lineNumber == n) =
      l.filter (fun i => i.lineNumber == n) := by
  refine ⟨List.sorted_insertionSort issueLE l,
    List.perm_insertionSort issueLE l, ?_⟩
  intro n
  induction l with
  | nil => rfl
  | cons x xs ih =>
    rw [analyzeFileNewPost, List.insertionSort,
      filter_orderedInsert_line, List.filter_cons]
    rw [analyzeFileNewPost] at ih
    by_cases hx : x.lineNumber = n <;> simp [hx, ih]

/-- C7 fails as stated: the default path hands the reporter sink a
sequence that is sorted but not deduplicated.  Two identical
memory-leak issues at line 5 (as arise when two enabled modules report
the same defect — each module's run starts by clearing the shared
manager, so cross-module duplicates are not suppressed) are both kept. -/
theorem analyzeFileNewPost_not_dedup :
    analyzeFileNewPost
        [⟨5, "memory_leak", "leak of p"⟩, ⟨5, "memory_leak", "leak of p"⟩] =
      [⟨5, "memory_leak", "leak of p"⟩, ⟨5, "memory_leak", "leak of p"⟩] ∧
    ¬ (analyzeFileNewPost
        [⟨5, "memory_leak", "leak of p"⟩,
         ⟨5, "memory_leak", "leak of p"⟩]).Nodup := by
  constructor <;> decide

end CBug

namespace CBug

/-- C9: a detector module's `analyze` begins by clearing the shared
process-wide Global Error Manager (via `ErrorReporter.clear_reports`), so
whatever keys an earlier module run admitted, a later module's run on the
same file behaves exactly as a run against an empty manager: no key
admitted by one module ever deduplicates or suppresses a finding of a
different module run later; conflict resolution applies only within a
single module's run. -/
theorem moduleAnalyze_independent_of_prior (st : GEMState)
    (firstRun laterRun : List ErrorKey) :
    moduleAnalyze st laterRun = moduleAnalyze [] laterRun ∧
    moduleAnalyze (moduleAnalyze st firstRun).2 laterRun =
      processCandidates [] laterRun := ⟨rfl, rfl⟩

end CBug

namespace CBug

end CBug

namespace CBug

theorem assocGet_cons {α : Type} (k' : String) (v' : α)
    (rest : List (String × α)) (n : String) :
    assocGet ((k', v') :: rest) n =
      if k' = n then some v' else assocGet rest n := by
  by_cases h : k' = n
  · rw [if_pos h, assocGet, List.find?_cons_of_pos _ (by simpa using h)]
    rfl
  · rw [if_neg h, assocGet, List.find?_cons_of_neg _ (by simpa using h)]
    rfl

theorem assocGet_assocSet {α : Type} (d : List (String × α)) (k n : String)
    (v : α) :
    assocGet (assocSet d k v) n = if n = k then some v else assocGet d n := by
  induction d with
  | nil =>
    by_cases h : n = k
    · subst h
      simp [assocSet, assocGet_cons]
    · have h' : ¬ k = n := fun hh => h hh.symm
      simp [assocSet, assocGet_cons, h, h', assocGet]
  | cons p rest ih =>
    obtain ⟨k', v'⟩ := p
    by_cases hk : k' = k
    · subst hk
      have hd : assocSet ((k', v') :: rest) k' v = (k', v) :: rest := by
        simp [assocSet]
      rw [hd, assocGet_cons, assocGet_cons]
      by_cases hn : k' = n
      · simp [hn]
      · have h' : ¬ n = k' := fun hh => hn hh.symm
        simp [hn, h']
    · simp only [assocSet, if_neg hk]
      rw [assocGet_cons, assocGet_cons]
      by_cases hn : k' = n
      · have h' : ¬ n = k := fun hh => hk (hn.trans hh)
        simp [hn, h']
      · simp [hn, ih]

theorem assocGet_foldl_setConst {α : Type} (w : α) :
    ∀ (l : List String) (d : List (String × α)) (name : String),
    assocGet (l.foldl (fun d v => assocSet d v w) d) name =
      if name ∈ l then some w else assocGet d name := by
  intro l
  induction l with
  | nil => intro d name; simp
  | cons x rest ih =>
    intro d name
    rw [List.foldl_cons, ih]
    by_cases hr : name ∈ rest
    · simp [hr]
    · rw [assocGet_assocSet]
      by_cases hx : name = x <;> simp [hr, hx]

end CBug

namespace CBug

theorem assocGet_foldl_insertIfAbsent (ln : Nat) :
    ∀ (l : List (String × Bool)) (d : VarStateMod.StateDict) (name : String),
    (assocGet d name).isSome →
    assocGet
        (l.foldl
          (fun d p =>
            if (assocGet d p.1).isSome then d
            else assocSet d p.1 ⟨"variable", ln, p.2, false, false⟩) d)
        name = assocGet d name := by
  intro l
  induction l with
  | nil => intro d name _; rfl
  | cons p rest ih =>
    intro d name hsome
    rw [List.foldl_cons]
    by_cases hp : (assocGet d p.1).isSome
    · rw [if_pos hp]
      exact ih d name hsome
    · rw [if_neg hp]
      have hne : ¬ name = p.1 := by
        intro he
        rw [he] at hsome
        exact hp hsome
      have hkeep :
          assocGet (assocSet d p.1
            (⟨"variable", ln, p.2, false, false⟩ : VarStateMod.VState))
            name = assocGet d name := by
        rw [assocGet_assocSet, if_neg hne]
      rw [ih _ name (by rw [hkeep]; exact hsome), hkeep]

theorem identifyStep_param_entry (d : VarStateMod.StateDict) (ln : Nat)
    (line : VarStateMod.Line) (name : String)
    (h : name ∈ line.funcParams) :
    assocGet (VarStateMod.identifyStep d ln line) name =
      some ⟨"parameter", ln, true, true, false⟩ := by
  have h2 : assocGet
      (line.funcParams.foldl
        (fun d v => assocSet d v
          (⟨"parameter", ln, true, true, false⟩ : VarStateMod.VState))
        (line.ptrDecls.foldl
          (fun d v => assocSet d v
            (⟨"pointer", ln, false, false, false⟩ : VarStateMod.VState)) d))
      name = some ⟨"parameter", ln, true, true, false⟩ := by
    rw [assocGet_foldl_setConst]
    simp [h]
  rw [VarStateMod.identifyStep,
    assocGet_foldl_insertIfAbsent ln _ _ _ (by rw [h2]; rfl), h2]

theorem identifyStep_preserves_pp (d : VarStateMod.StateDict) (ln : Nat)
    (line : VarStateMod.Line) (name : String) (vs : VarStateMod.VState)
    (h : assocGet d name = some vs)
    (hp : vs.isFunctionParam = true ∨ vs.vtype = "pointer") :
    ∃ vs', assocGet (VarStateMod.identifyStep d ln line) name = some vs' ∧
      (vs'.isFunctionParam = true ∨ vs'.vtype = "pointer") := by
  by_cases hparam : name ∈ line.funcParams
  · exact ⟨_, identifyStep_param_entry d ln line name hparam, Or.inl rfl⟩
  · have h1 : assocGet
        (line.ptrDecls.foldl
          (fun d v => assocSet d v
            (⟨"pointer", ln, false, false, false⟩ : VarStateMod.VState)) d)
        name =
          if name ∈ line.ptrDecls
          then some ⟨"pointer", ln, false, false, false⟩
          else some vs := by
      rw [assocGet_foldl_setConst]
      by_cases hptr : name ∈ line.ptrDecls <;> simp [hptr, h]
    have h2 : assocGet
        (line.funcParams.foldl
          (fun d v => assocSet d v
            (⟨"parameter", ln, true, true, false⟩ : VarStateMod.VState))
          (line.ptrDecls.foldl
            (fun d v => assocSet d v
              (⟨"pointer", ln, false, false, false⟩ : VarStateMod.VState))
            d))
        name =
          if name ∈ line.ptrDecls
          then some ⟨"pointer", ln, false, false, false⟩
          else some vs := by
      rw [assocGet_foldl_setConst, if_neg hparam, h1]
    have hsome : (assocGet
        (line.funcParams.foldl
          (fun d v => assocSet d v
            (⟨"parameter", ln, true, true, false⟩ : VarStateMod.VState))
          (line.ptrDecls.foldl
            (fun d v => assocSet d v
              (⟨"pointer", ln, false, false, false⟩ : VarStateMod.VState))
            d))
        name).isSome := by
      rw [h2]
      by_cases hptr : name ∈ line.ptrDecls <;> simp [hptr]
    rw [VarStateMod.identifyStep]
    rw [assocGet_foldl_insertIfAbsent ln _ _ _ hsome, h2]
    by_cases hptr : name ∈ line.ptrDecls
    · exact ⟨_, by rw [if_pos hptr], Or.inr rfl⟩
    · exact ⟨vs, by rw [if_neg hptr], hp⟩

end CBug

namespace CBug

theorem identify_fold_param (name : String) :
    ∀ (ps : List (Nat × VarStateMod.Line)) (d : VarStateMod.StateDict),
    ((∃ p ∈ ps, name ∈ (p.2 : VarStateMod.Line).funcParams) ∨
      (∃ vs, assocGet d name = some vs ∧
        (vs.isFunctionParam = true ∨ vs.vtype = "pointer"))) →
    ∃ vs,
      assocGet
        (ps.foldl (fun d p => VarStateMod.identifyStep d p.1 p.2) d) name =
        some vs ∧
      (vs.isFunctionParam = true ∨ vs.vtype = "pointer") := by
  intro ps
  induction ps with
  | nil =>
    intro d h
    rcases h with ⟨p, hp, _⟩ | h
    · exact absurd hp (by simp)
    · exact h
  | cons p rest ih =>
    intro d h
    rw [List.foldl_cons]
    rcases h with ⟨q, hq, hname⟩ | ⟨vs, hvs, hp⟩
    · rcases List.mem_cons.mp hq with rfl | hq'
      · exact ih _ (Or.inr ⟨_,
          identifyStep_param_entry d q.1 q.2 name hname, Or.inl rfl⟩)
      · exact ih _ (Or.inl ⟨q, hq', hname⟩)
    · obtain ⟨vs', h1, h2⟩ :=
        identifyStep_preserves_pp d p.1 p.2 name vs hvs hp
      exact ih _ (Or.inr ⟨vs', h1, h2⟩)

end CBug

namespace CBug

end CBug

namespace CBug

theorem checkPS_other (tainted : List (String × String))
    (st : ExtMem.DetectState) (ptr q : String) (ln : Nat) (hne : ptr ≠ q) :
    ((ExtMem.checkPointerSafety tainted st ptr ln).findings.filter
        (fun f => f.var == q) =
      st.findings.filter (fun f => f.var == q)) ∧
    ((q ∈ (ExtMem.checkPointerSafety tainted st ptr ln).reportedPointers) ↔
      q ∈ st.reportedPointers) ∧
    assocGet (ExtMem.checkPointerSafety tainted st ptr ln).usageLocations
        q = assocGet st.usageLocations q := by
  rw [ExtMem.checkPointerSafety]
  cases h : assocGet tainted ptr with
  | none => exact ⟨rfl, Iff.rfl, rfl⟩
  | some src =>
    dsimp only
    by_cases hr : ptr ∈ st.reportedPointers
    · rw [if_pos hr]
      refine ⟨rfl, Iff.rfl, ?_⟩
      rw [assocGet_assocSet, if_neg (fun hh => hne hh.symm)]
    · rw [if_neg hr]
      refine ⟨?_, ?_, ?_⟩
      · have hb : (ptr == q) = false := by simp [hne]
        simp [List.filter_append, List.filter, hb]
      · constructor
        · intro hq
          rcases List.mem_append.mp hq with hq' | hq'
          · exact hq'
          · rw [List.mem_singleton] at hq'
            exact absurd hq'.symm hne
        · intro hq
          exact List.mem_append.mpr (Or.inl hq)
      · rw [assocGet_assocSet, if_neg (fun hh => hne hh.symm)]

theorem checkPS_q_first (tainted : List (String × String))
    (st : ExtMem.DetectState) (q src : String) (ln : Nat)
    (htaint : assocGet tainted q = some src)
    (hr : q ∉ st.reportedPointers)
    (hu : assocGet st.usageLocations q = none) :
    ExtMem.checkPointerSafety tainted st q ln =
      ⟨assocSet st.usageLocations q [ln], st.reportedPointers ++ [q],
        st.findings ++ [⟨ln, q, src, []⟩]⟩ := by
  rw [ExtMem.checkPointerSafety, htaint]
  dsimp only
  rw [hu, if_neg hr]
  simp

theorem checkPS_q_reported (tainted : List (String × String))
    (st : ExtMem.DetectState) (q src : String) (ln : Nat)
    (htaint : assocGet tainted q = some src)
    (hr : q ∈ st.reportedPointers) :
    ExtMem.checkPointerSafety tainted st q ln =
      ⟨assocSet st.usageLocations q
          ((assocGet st.usageLocations q).getD [] ++ [ln]),
        st.reportedPointers, st.findings⟩ := by
  rw [ExtMem.checkPointerSafety, htaint]
  dsimp only
  rw [if_pos hr]

end CBug

namespace CBug

theorem checkFold_reported (tainted : List (String × String))
    (q src : String) (htaint : assocGet tainted q = some src) (ln : Nat) :
    ∀ (ds : List String) (st : ExtMem.DetectState),
    q ∈ st.reportedPointers →
    q ∈ (ds.foldl
        (fun st ptr => ExtMem.checkPointerSafety tainted st ptr ln)
        st).reportedPointers ∧
    (ds.foldl (fun st ptr => ExtMem.checkPointerSafety tainted st ptr ln)
        st).findings.filter (fun f => f.var == q) =
      st.findings.filter (fun f => f.var == q) := by
  intro ds
  induction ds with
  | nil => exact fun st h => ⟨h, rfl⟩
  | cons d rest ih =>
    intro st h
    rw [List.foldl_cons]
    by_cases hd : d = q
    · subst hd
      rw [checkPS_q_reported tainted st d src ln htaint h]
      exact ih _ h
    · obtain ⟨h1, h2, _⟩ := checkPS_other tainted st d q ln hd
      obtain ⟨h3, h4⟩ := ih _ (h2.mpr h)
      exact ⟨h3, h4.trans h1⟩

theorem checkFold_clean (tainted : List (String × String))
    (q src : String) (htaint : assocGet tainted q = some src) (ln : Nat) :
    ∀ (ds : List String) (st : ExtMem.DetectState),
    q ∉ st.reportedPointers → assocGet st.usageLocations q = none →
    (q ∈ ds →
      q ∈ (ds.foldl
          (fun st ptr => ExtMem.checkPointerSafety tainted st ptr ln)
          st).reportedPointers ∧
      (ds.foldl (fun st ptr => ExtMem.checkPointerSafety tainted st ptr ln)
          st).findings.filter (fun f => f.var == q) =
        st.findings.filter (fun f => f.var == q) ++ [⟨ln, q, src, []⟩]) ∧
    (q ∉ ds →
      q ∉ (ds.foldl
          (fun st ptr => ExtMem.checkPointerSafety tainted st ptr ln)
          st).reportedPointers ∧
      assocGet (ds.foldl
          (fun st ptr => ExtMem.checkPointerSafety tainted st ptr ln)
          st).usageLocations q = none ∧
      (ds.foldl (fun st ptr => ExtMem.checkPointerSafety tainted st ptr ln)
          st).findings.filter (fun f => f.var == q) =
        st.findings.filter (fun f => f.var == q)) := by
  intro ds
  induction ds with
  | nil =>
    intro st hr hu
    exact ⟨fun h => absurd h (by simp), fun _ => ⟨hr, hu, rfl⟩⟩
  | cons d rest ih =>
    intro st hr hu
    constructor
    · intro hmem
      rw [List.foldl_cons]
      by_cases hd : d = q
      · subst hd
        rw [checkPS_q_first tainted st d src ln htaint hr hu]
        have hrep : d ∈ (st.reportedPointers ++ [d]) := by simp
        obtain ⟨h1, h2⟩ := checkFold_reported tainted d src htaint ln rest
          ⟨assocSet st.usageLocations d [ln], st.reportedPointers ++ [d],
            st.findings ++ [⟨ln, d, src, []⟩]⟩ hrep
        refine ⟨h1, ?_⟩
        rw [h2]
        have hb : (d == d) = true := by simp
        simp [List.filter_append, List.filter, hb]
      · have hmem' : q ∈ rest := by
          rcases List.mem_cons.mp hmem with he | hm
          · exact absurd he.symm hd
          · exact hm
        obtain ⟨h1, h2, h3⟩ := checkPS_other tainted st d q ln hd
        obtain ⟨h4, h5⟩ :=
          (ih _ (fun hq => hr (h2.mp hq)) (h3.trans hu)).1 hmem'
        exact ⟨h4, by rw [h5, h1]⟩
    · intro hnmem
      rw [List.foldl_cons]
      have hd : d ≠ q := fun he => hnmem (by simp [he])
      have hrest : q ∉ rest := fun hm => hnmem (by simp [hm])
      obtain ⟨h1, h2, h3⟩ := checkPS_other tainted st d q ln hd
      obtain ⟨h4, h5, h6⟩ :=
        (ih _ (fun hq => hr (h2.mp hq)) (h3.trans hu)).2 hrest
      exact ⟨h4, h5, by rw [h6, h1]⟩

end CBug

namespace CBug

theorem detect_fold_reported (tainted : List (String × String))
    (q src : String) (htaint : assocGet tainted q = some src) :
    ∀ (ps : List (Nat × ExtMem.Line)) (st : ExtMem.DetectState),
    q ∈ st.reportedPointers →
    q ∈ (ps.foldl (fun st p => ExtMem.detectStep tainted st p.1 p.2)
        st).reportedPointers ∧
    (ps.foldl (fun st p => ExtMem.detectStep tainted st p.1 p.2)
        st).findings.filter (fun f => f.var == q) =
      st.findings.filter (fun f => f.var == q) := by
  intro ps
  induction ps with
  | nil => exact fun st h => ⟨h, rfl⟩
  | cons p rest ih =>
    intro st h
    rw [List.foldl_cons, ExtMem.detectStep]
    by_cases h1 : p.2.isDeclSkip = true
    · rw [if_pos h1]
      exact ih st h
    · rw [if_neg h1]
      by_cases h2 : p.2.isFuncDefDetect = true
      · rw [if_pos h2]
        exact ih st h
      · rw [if_neg h2]
        obtain ⟨h3, h4⟩ :=
          checkFold_reported tainted q src htaint p.1 p.2.derefs st h
        obtain ⟨h5, h6⟩ := ih _ h3
        exact ⟨h5, h6.trans h4⟩

theorem detect_fold_clean (tainted : List (String × String))
    (q src : String) (htaint : assocGet tainted q = some src) :
    ∀ (ps : List (Nat × ExtMem.Line)) (st : ExtMem.DetectState),
    q ∉ st.reportedPointers → assocGet st.usageLocations q = none →
    (ps.foldl (fun st p => ExtMem.detectStep tainted st p.1 p.2)
        st).findings.filter (fun f => f.var == q) =
      st.findings.filter (fun f => f.var == q) ++
        (match
            (ps.filter fun p =>
              !(p.2.isDeclSkip || p.2.isFuncDefDetect)).flatMap
              (fun p =>
                ((p.2 : ExtMem.Line).derefs.filter fun d => d == q).map
                  fun _ => p.1) with
          | [] => []
          | l :: _ => [⟨l, q, src, []⟩]) := by
  intro ps
  induction ps with
  | nil =>
    intro st _ _
    simp
  | cons p rest ih =>
    intro st hr hu
    rw [List.foldl_cons, ExtMem.detectStep]
    by_cases h1 : p.2.isDeclSkip = true
    · have hfc : List.filter
          (fun p => !(p.2.isDeclSkip || p.2.isFuncDefDetect)) (p :: rest) =
          List.filter
            (fun p => !(p.2.isDeclSkip || p.2.isFuncDefDetect)) rest := by
        rw [List.filter_cons]
        simp [h1]
      rw [if_pos h1, hfc]
      exact ih st hr hu
    · rw [if_neg h1]
      by_cases h2 : p.2.isFuncDefDetect = true
      · have hfc : List.filter
            (fun p => !(p.2.isDeclSkip || p.2.isFuncDefDetect)) (p :: rest) =
            List.filter
              (fun p => !(p.2.isDeclSkip || p.2.isFuncDefDetect)) rest := by
          rw [List.filter_cons]
          simp [h2]
        rw [if_pos h2, hfc]
        exact ih st hr hu
      · have hfc : List.filter
            (fun p => !(p.2.isDeclSkip || p.2.isFuncDefDetect)) (p :: rest) =
            p :: List.filter
              (fun p => !(p.2.isDeclSkip || p.2.isFuncDefDetect)) rest := by
          rw [List.filter_cons]
          simp [h1, h2]
        rw [if_neg h2, hfc, List.flatMap_cons]
        by_cases hmem : q ∈ p.2.derefs
        · obtain ⟨hrep, hfind⟩ :=
            (checkFold_clean tainted q src htaint p.1 p.2.derefs st
              hr hu).1 hmem
          obtain ⟨_, hpres⟩ := detect_fold_reported tainted q src htaint
            rest _ hrep
          rw [hpres, hfind]
          have hne : (p.2.derefs.filter fun d => d == q) ≠ [] :=
            List.ne_nil_of_mem
              (List.mem_filter.mpr ⟨hmem, by simp⟩)
          obtain ⟨a, t, ht⟩ := List.exists_cons_of_ne_nil hne
          rw [ht, List.map_cons, List.cons_append]
        · obtain ⟨hr', hu', hfind⟩ :=
            (checkFold_clean tainted q src htaint p.1 p.2.derefs st
              hr hu).2 hmem
          have hfil2 : (p.2.derefs.filter fun d => d == q) = [] := by
            rw [List.filter_eq_nil_iff]
            intro d hd
            simp only [beq_iff_eq]
            intro he
            exact hmem (he ▸ hd)
          rw [hfil2, List.map_nil, List.nil_append]
          rw [ih _ hr' hu', hfind]

end CBug

namespace CBug

/-- C4 (amended): interprocedural taint with first-use reporting.  If the
interprocedural analysis taints `q` with source function `f` (as it does
for `q = f();` when `f`'s summary returns an uninitialized pointer), then
among the pipeline's findings exactly one references `q`: it is emitted
at the FIRST dereference of `q`, names `f` as the taint source, and its
message carries no usage-line aggregate — the later dereference lines are
recorded in `pointer_usage_locations` but the single report is written at
the first use, when only that one line has been recorded, so the message
cannot list both lines. -/
theorem interprocedural_taint_single_finding (lines : List ExtMem.Line)
    (q f : String)
    (htaint : assocGet
        (ExtMem.analyzeInterproceduralMemory
          (ExtMem.analyzeFunctionSummaries lines).returnStates lines)
        q = some f) :
    (ExtMem.extTaintPipeline lines).filter (fun fi => fi.var == q) =
      match ExtMem.qUseLines q lines with
      | [] => []
      | l :: _ => [⟨l, q, f, []⟩] := by
  rw [ExtMem.extTaintPipeline, ExtMem.detectTaintedUses]
  rw [detect_fold_clean _ q f htaint (lines.enumFrom 1)
    ⟨[], [], []⟩ (by simp) rfl]
  rw [ExtMem.qUseLines]
  simp

/-- Witness for the amended C4: `int* f() { int *p; return p; }` and a
caller `q = f();` with dereferences of `q` at lines 6 and 7 — exactly
one finding, at line 6, naming `f`, with no aggregated line list. -/
theorem interprocedural_taint_single_finding_witness :
    (assocGet
        (ExtMem.analyzeInterproceduralMemory
          (ExtMem.analyzeFunctionSummaries
            [⟨some "f", 1, [], [], [], [], false, true⟩,
             ⟨none, 0, [("p", false, false)], [], [], [], true, false⟩,
             ⟨none, 0, [], [["p"]], [], [], false, false⟩,
             ⟨none, -1, [], [], [], [], false, false⟩,
             ⟨none, 0, [], [], [("q", "f")], [], false, false⟩,
             ⟨none, 0, [], [], [], ["q"], false, false⟩,
             ⟨none, 0, [], [], [], ["q"], false, false⟩]).returnStates
          [⟨some "f", 1, [], [], [], [], false, true⟩,
           ⟨none, 0, [("p", false, false)], [], [], [], true, false⟩,
           ⟨none, 0, [], [["p"]], [], [], false, false⟩,
           ⟨none, -1, [], [], [], [], false, false⟩,
           ⟨none, 0, [], [], [("q", "f")], [], false, false⟩,
           ⟨none, 0, [], [], [], ["q"], false, false⟩,
           ⟨none, 0, [], [], [], ["q"], false, false⟩])
        "q" = some "f") ∧
    (ExtMem.extTaintPipeline
        [⟨some "f", 1, [], [], [], [], false, true⟩,
         ⟨none, 0, [("p", false, false)], [], [], [], true, false⟩,
         ⟨none, 0, [], [["p"]], [], [], false, false⟩,
         ⟨none, -1, [], [], [], [], false, false⟩,
         ⟨none, 0, [], [], [("q", "f")], [], false, false⟩,
         ⟨none, 0, [], [], [], ["q"], false, false⟩,
         ⟨none, 0, [], [], [], ["q"], false, false⟩]).filter
        (fun fi => fi.var == "q") =
      match ExtMem.qUseLines "q"
          [⟨some "f", 1, [], [], [], [], false, true⟩,
           ⟨none, 0, [("p", false, false)], [], [], [], true, false⟩,
           ⟨none, 0, [], [["p"]], [], [], false, false⟩,
           ⟨none, -1, [], [], [], [], false, false⟩,
           ⟨none, 0, [], [], [("q", "f")], [], false, false⟩,
           ⟨none, 0, [], [], [], ["q"], false, false⟩,
           ⟨none, 0, [], [], [], ["q"], false, false⟩] with
      | [] => []
      | l :: _ => [⟨l, "q", "f", []⟩] :=
  ⟨by decide,
    interprocedural_taint_single_finding _ "q" "f" (by decide)⟩

/-- C4 counterexample: on the scenario's event stream (function `f`
declaring uninitialized pointer `p` and returning it; caller `q = f();`
at line 5; dereferences of `q` at lines 6 AND 7) the pipeline emits
exactly one finding — as the claim says — but that finding is emitted at
line 6 with an empty usage-line aggregate: its message does not list both
dereference lines, contradicting the claim's "message lists both
dereference lines".  (The aggregate would be non-empty only if several
uses were recorded before the first report, which cannot happen.) -/
theorem interprocedural_taint_no_aggregate_counterexample :
    ExtMem.extTaintPipeline
        [⟨some "f", 1, [], [], [], [], false, true⟩,
         ⟨none, 0, [("p", false, false)], [], [], [], true, false⟩,
         ⟨none, 0, [], [["p"]], [], [], false, false⟩,
         ⟨none, -1, [], [], [], [], false, false⟩,
         ⟨none, 0, [], [], [("q", "f")], [], false, false⟩,
         ⟨none, 0, [], [], [], ["q"], false, false⟩,
         ⟨none, 0, [], [], [], ["q"], false, false⟩] =
      [⟨6, "q", "f", []⟩] ∧
    (∀ fi ∈ ExtMem.extTaintPipeline
        [⟨some "f", 1, [], [], [], [], false, true⟩,
         ⟨none, 0, [("p", false, false)], [], [], [], true, false⟩,
         ⟨none, 0, [], [["p"]], [], [], false, false⟩,
         ⟨none, -1, [], [], [], [], false, false⟩,
         ⟨none, 0, [], [], [("q", "f")], [], false, false⟩,
         ⟨none, 0, [], [], [], ["q"], false, false⟩,
         ⟨none, 0, [], [], [], ["q"], false, false⟩],
      fi.listedLines = []) := by
  constructor <;> decide

end CBug

namespace CBug

end CBug

namespace CBug

end CBug

namespace CBug

end CBug
